import Mathlib

/-!
Shallow embedding of `script/native-tests.py` (a Python 2 script that
orchestrates Google Test binaries) together with proofs about the claims of
the specification.

The script is Python 2 (`print` statement, `basestring`, `dict.keys()[0]`),
so the registry `self.tests` is a CPython 2.7 `dict`: insertion and lookup
use the open-addressing hash table of `Objects/dictobject.c` with the string
hash of `Objects/stringobject.c` (64-bit build, hash randomization off, the
default for CPython 2.7).  Iteration (`dict.keys()`) yields entries in slot
order, which is hash order and not insertion order; this matters for the
claims about `get_names`.  The table is modelled at its initial size of 8
slots; CPython only resizes once a 6th distinct key is inserted, and the
configs appearing in concrete statements below stay far below that bound.
Probing in CPython always terminates because the table is never full; the
model makes the probe loop total with an explicit fuel of 21 steps (13 steps
exhaust the 64-bit perturb, after which the slot sequence `i := 5*i + 1`
cycles through all 8 residues), and operations return `none` when the fuel
runs out, an outcome that never occurs on a table with an empty slot.
-/

namespace NativeTests

/-- 2^64, the modulus of the 64-bit arithmetic used by CPython hashing. -/
def U64 : Nat := 18446744073709551616

/-- Inner loop of CPython 2.7 `string_hash`: `x = (1000003*x) ^ ord(c)`
for every character, in wrapping 64-bit arithmetic. -/
def pyStrHashLoop : List Char → Nat → Nat
  | [], x => x
  | c :: rest, x => pyStrHashLoop rest (((1000003 * x) % U64) ^^^ c.toNat)

/-- CPython 2.7 `string_hash` on a 64-bit build without hash randomization:
`x = ord(s[0]) << 7`, then the multiply-xor loop over all characters, then
`x ^= len(s)`, with the reserved value -1 (here `U64 - 1` as an unsigned
bit pattern) mapped to -2.  The empty string hashes to 0. -/
def pyStrHash (s : String) : Nat :=
  match s.data with
  | [] => 0
  | c :: _ =>
    let x0 := (c.toNat <<< 7) % U64
    let x1 := pyStrHashLoop s.data x0
    let x2 := x1 ^^^ s.length
    if x2 = U64 - 1 then U64 - 2 else x2

/-- The probe state of CPython `lookdict` after `n` steps for a key with
(unsigned) hash `h`: the pair `(i, perturb)`.  Initially `i = h & mask`
(mask = 7) and `perturb = h`; each step does `i = 5*i + perturb + 1`
(unmasked, wrapping at 2^64) and `perturb >>= 5`. -/
def probePair (h : Nat) : Nat → Nat × Nat
  | 0 => (h % 8, h % U64)
  | n + 1 =>
    let ip := probePair h n
    ((5 * ip.1 + ip.2 + 1) % U64, ip.2 >>> 5)

/-- The table slot inspected at probe step `n`: `i & mask` with mask = 7. -/
def probeSlot (h : Nat) (n : Nat) : Fin 8 :=
  ⟨(probePair h n).1 % 8, Nat.mod_lt _ (by norm_num)⟩

/-- Fuel for the probe loop: 13 steps expend the 64-bit perturb, and the 8
following steps visit every slot of the size-8 table. -/
def probeFuel : Nat := 21

/-- First index `n` in `[start, start + fuel)` with `p n = true` (the probe
loop of `lookdict`, searching along the probe sequence). -/
def searchIdx (p : Nat → Bool) : Nat → Nat → Option Nat
  | 0, _ => none
  | fuel + 1, start => if p start then some start else searchIdx p fuel (start + 1)

/-- A CPython 2.7 dict at its initial size: 8 slots, each empty or holding a
key-value pair.  The script never deletes entries, so dummy slots do not
arise. -/
structure PyDict (α : Type) where
  slots : Fin 8 → Option (String × α)

namespace PyDict

variable {α : Type}

/-- The empty dict (`{}`). -/
def empty : PyDict α := ⟨fun _ => none⟩

/-- Overwrite one slot of the table. -/
def setSlot (d : PyDict α) (s : Fin 8) (e : Option (String × α)) : PyDict α :=
  ⟨fun t => if t = s then e else d.slots t⟩

/-- `lookdict` stops at step `n` when the slot there is empty or holds the
key searched for. -/
def probeHit (d : PyDict α) (k : String) (n : Nat) : Bool :=
  match d.slots (probeSlot (pyStrHash k) n) with
  | none => true
  | some (k', _) => k' == k

/-- Index (along the probe sequence of `k`) of the slot where `lookdict`
stops: the first empty slot or the slot already holding `k`.  `none` only on
fuel exhaustion, which cannot happen while the table has an empty slot. -/
def findIdx (d : PyDict α) (k : String) : Option Nat :=
  searchIdx (d.probeHit k) probeFuel 0

/-- Dict lookup: `some (some v)` when `k` maps to `v`, `some none` when `k`
is absent (the probe found an empty slot), `none` on fuel exhaustion. -/
def lookup (d : PyDict α) (k : String) : Option (Option α) :=
  (d.findIdx k).map fun n =>
    match d.slots (probeSlot (pyStrHash k) n) with
    | none => none
    | some (_, v) => some v

/-- `d[k] = v`: place `(k, v)` at the slot where the probe stopped.  When
the probe found `k` this overwrites the value in place (the slot, hence the
iteration position, of `k` never changes); when it found an empty slot this
claims that slot. -/
def insert (d : PyDict α) (k : String) (v : α) : Option (PyDict α) :=
  (d.findIdx k).map fun n => d.setSlot (probeSlot (pyStrHash k) n) (some (k, v))

/-- `d.keys()`: Python 2 returns a list of the keys in slot order. -/
def keys (d : PyDict α) : List String :=
  (List.finRange 8).filterMap fun s => (d.slots s).map Prod.fst

/-- `k in d` succeeded and found the key. -/
def isFound (r : Option (Option α)) : Bool :=
  match r with
  | some (some _) => true
  | _ => false

end PyDict

/-- The optional per-binary settings mapping of the YAML config.  The script
only ever reads the keys `to_fix` and (in a TODO comment) `platform`, so the
settings dict is modelled by those two optional entries; `'to_fix' in
configs` is `to_fix.isSome`. -/
structure Settings where
  to_fix : Option (List String)
  platform : Option (List String)
deriving DecidableEq

/-- One element of the top-level `tests` sequence of the config: either a
bare string or a single-key mapping `{name: settingsOrNull}`.  (The source
asserts on any other shape; such shapes are outside this type.) -/
inductive ConfigEntry
  | str (s : String)
  | map (key : String) (settings : Option Settings)
deriving DecidableEq

/-- Errors of the modelled script.  CPython exception classes are collapsed
to the data the script produces: `attributeError` for the failing attribute
assignment in `__get_test_data`, `unknownBinary` for the `Exception` raised
by `TestsList.run`, and `fuelExhausted` as the model artifact of the probe
fuel (unreachable on tables with an empty slot). -/
inductive PyError
  | attributeError (msg : String)
  | unknownBinary (binary : String) (config : String)
  | fuelExhausted
deriving DecidableEq

/-- The per-binary test data dict built by `__get_test_data`: keys
`excluded_tests` and `platforms`, both initialized to `None`. -/
structure TestData where
  excluded_tests : Option (List String)
  platforms : Option (List String)
deriving DecidableEq

/-- `TestsList.__expand_shorthand`: a string `s` is treated as `{s: None}`;
a mapping is used as-is.  The result is the single-key mapping, given by its
key (`data_item.keys()[0]` in the source) and its settings value. -/
def expand_shorthand : ConfigEntry → String × Option Settings
  | .str s => (s, none)
  | .map k st => (k, st)

/-- `TestsList.__get_test_data`, translated faithfully: it builds the dict
`{'excluded_tests': None, 'platforms': None}` and then, when the settings
are non-null and contain `to_fix`, executes
`test_data.excluded_tests = configs['to_fix']` — an attribute assignment on
a plain dict, which raises `AttributeError` in Python.  So every entry with
a `to_fix` key makes the script crash instead of recording the exclusions;
entries without `to_fix` yield `excluded_tests = None`. -/
def get_test_data (data_item : ConfigEntry) : Except PyError (String × TestData) :=
  let nc := expand_shorthand data_item
  let binary_name := nc.1
  let test_data : TestData := { excluded_tests := none, platforms := none }
  match nc.2 with
  | none => .ok (binary_name, test_data)
  | some configs =>
    if configs.to_fix.isSome then
      .error (.attributeError "dict object has no attribute excluded_tests")
    else
      .ok (binary_name, test_data)

/-- The loop body of `TestsList.__get_tests_list`: process the entries in
order, `tests_list[binary_name] = test_data` for each. -/
def get_tests_list_aux : List ConfigEntry → PyDict TestData →
    Except PyError (PyDict TestData)
  | [], acc => .ok acc
  | item :: rest, acc =>
    match get_test_data item with
    | .error e => .error e
    | .ok (name, td) =>
      match acc.insert name td with
      | none => .error .fuelExhausted
      | some acc' => get_tests_list_aux rest acc'

/-- `TestsList.__get_tests_list`: fold the config entries into a fresh dict.
(The YAML load itself is out of scope; the function receives the parsed
`tests` sequence.) -/
def get_tests_list (config_tests : List ConfigEntry) : Except PyError (PyDict TestData) :=
  get_tests_list_aux config_tests PyDict.empty

/-- The binary name contributed by a config entry (the key after shorthand
expansion). -/
def entryName (e : ConfigEntry) : String := (expand_shorthand e).1

/-- Boolean string-prefix test, on the character lists (used to state and to
decide facts about the constructed argv strings). -/
def strStartsWith (s pre : String) : Bool := pre.data.isPrefixOf s.data

/-- Boolean string-suffix test, on the character lists. -/
def strEndsWith (s suf : String) : Bool := suf.data.isSuffixOf s.data

/-- `os.path.join(a, b)` for two POSIX components: an absolute `b` wins;
otherwise the pieces are joined, inserting `/` unless `a` is empty or
already ends in `/`. -/
def pyJoin (a b : String) : String :=
  if strStartsWith b "/" then b
  else if a = "" then b
  else if strEndsWith a "/" then a ++ b
  else a ++ "/" ++ b

/-- `TestsList.__get_output_path`: `None` without an output dir, otherwise
`os.path.join(output_dir, "results_<binary_name>.xml")`. -/
def get_output_path (binary_name : String) (output_dir : Option String) : Option String :=
  match output_dir with
  | none => none
  | some d => some (pyJoin d ("results_" ++ binary_name ++ ".xml"))

/-- `TestBinary.__format_excluded_tests`: `"-" + ":".join(excluded_tests)`. -/
def format_excluded_tests (excluded_tests : List String) : String :=
  "-" ++ String.intercalate ":" excluded_tests

/-- `TestBinary.output_format`, set in `TestBinary.__init__` and only used
when writing results to a file. -/
def output_format : String := "xml"

/-- One `subprocess.call` made by `TestBinary.run`: the argv list and
whether stdout was redirected to `os.devnull` (when false it stays attached
to the stdout of the orchestrator). -/
structure Invocation where
  args : List String
  stdout_to_devnull : Bool
deriving DecidableEq

/-- The argv list and stdout redirection built by `TestBinary.run`:
`gtest_filter` is `--gtest_filter=<formatted exclusions>` when the excluded
list is non-null and non-empty and the empty string otherwise;
`gtest_output` is `--gtest_output=<format>:<path>` when an output file path
is given and the empty string otherwise; `args` is always the three-element
list `[binary_path, gtest_filter, gtest_output]`; stdout goes to
`os.devnull` exactly when an output file path is given. -/
def mkInvocation (binary_path : String) (excluded_tests : Option (List String))
    (output_file_path : Option String) : Invocation :=
  let gtest_filter :=
    match excluded_tests with
    | some l => if 0 < l.length then "--gtest_filter=" ++ format_excluded_tests l else ""
    | none => ""
  let gtest_output :=
    match output_file_path with
    | none => ""
    | some p => "--gtest_output=" ++ output_format ++ ":" ++ p
  { args := [binary_path, gtest_filter, gtest_output],
    stdout_to_devnull := output_file_path.isSome }

/-- `TestBinary.run` with the operating system abstracted: `exitOf` maps the
performed invocation to the exit code `subprocess.call` reports.  Returns
the invocation together with its exit code. -/
def TestBinary.runProc (exitOf : Invocation → Int) (binary_path : String)
    (excluded_tests : Option (List String)) (output_file_path : Option String) :
    Invocation × Int :=
  let inv := mkInvocation binary_path excluded_tests output_file_path
  (inv, exitOf inv)

/-- The state of a `TestsList` object after `__init__`: the stored config
path, tests dir and the registry dict.  All methods below are translated in
state-passing style (the `self` argument goes in and comes back out), so
that mutation of the object, were there any, would be visible. -/
structure TestsList where
  config_path : String
  tests_dir : String
  tests : PyDict TestData

/-- `TestsList.__init__`: store both paths and build the registry from the
parsed config (the YAML load itself is out of scope). -/
def TestsList.init (config_path tests_dir : String) (config_tests : List ConfigEntry) :
    Except PyError TestsList :=
  match get_tests_list config_tests with
  | .error e => .error e
  | .ok d => .ok { config_path := config_path, tests_dir := tests_dir, tests := d }

/-- `TestsList.get_names`: `self.tests.keys()`, threading `self`. -/
def TestsList.get_names_st (t : TestsList) : List String × TestsList :=
  (t.tests.keys, t)

/-- `TestsList.get_names`, result only. -/
def TestsList.get_names (t : TestsList) : List String :=
  (t.get_names_st).1

/-- The validation loop at the head of `TestsList.run`: for each requested
name, `if not binary_name in self.tests: raise Exception(...)`. -/
def TestsList.validate_st : TestsList → List String → Except PyError Unit × TestsList
  | t, [] => (.ok (), t)
  | t, binary_name :: rest =>
    match t.tests.lookup binary_name with
    | none => (.error .fuelExhausted, t)
    | some none => (.error (.unknownBinary binary_name t.config_path), t)
    | some (some _) => TestsList.validate_st t rest

/-- `TestsList.__run`: resolve `os.path.join(self.tests_dir, binary_name)`,
fetch `self.tests[binary_name]`, compute the output path and delegate to
`TestBinary.run`. -/
def TestsList.runOne_st (t : TestsList) (exitOf : Invocation → Int)
    (binary_name : String) (output_dir : Option String) :
    Except PyError (Invocation × Int) × TestsList :=
  let binary_path := pyJoin t.tests_dir binary_name
  match t.tests.lookup binary_name with
  | none => (.error .fuelExhausted, t)
  | some none => (.error (.unknownBinary binary_name t.config_path), t)
  | some (some test_data) =>
    (.ok (TestBinary.runProc exitOf binary_path test_data.excluded_tests
        (get_output_path binary_name output_dir)), t)

/-- The accumulation loop of `TestsList.run`:
`suite_returncode += self.__run(binary_name, output_dir)` over the names in
order.  Returns the list of invocations performed (in order) together with
the accumulated sum, threading `self`. -/
def TestsList.runExec_st : TestsList → (Invocation → Int) → Option String →
    List String → (List Invocation × Except PyError Int) × TestsList
  | t, _, _, [] => (([], .ok 0), t)
  | t, exitOf, output_dir, binary_name :: rest =>
    let r := TestsList.runOne_st t exitOf binary_name output_dir
    match r.1 with
    | .error e => (([], .error e), r.2)
    | .ok (inv, code) =>
      let rr := TestsList.runExec_st r.2 exitOf output_dir rest
      ((inv :: rr.1.1, match rr.1.2 with
        | .error e => .error e
        | .ok s => .ok (code + s)), rr.2)

/-- `TestsList.run`: validate every requested name first, then execute the
binaries in order and sum their exit codes. -/
def TestsList.run_st (t : TestsList) (exitOf : Invocation → Int)
    (binaries : List String) (output_dir : Option String) :
    (List Invocation × Except PyError Int) × TestsList :=
  let v := t.validate_st binaries
  match v.1 with
  | .error e => (([], .error e), v.2)
  | .ok _ => TestsList.runExec_st v.2 exitOf output_dir binaries

/-- `TestsList.run`, observable part: invocations performed and result. -/
def TestsList.run (t : TestsList) (exitOf : Invocation → Int)
    (binaries : List String) (output_dir : Option String) :
    List Invocation × Except PyError Int :=
  (t.run_st exitOf binaries output_dir).1

/-- `TestsList.run_only`: `self.run([binary_name], output_dir)`. -/
def TestsList.run_only_st (t : TestsList) (exitOf : Invocation → Int)
    (binary_name : String) (output_dir : Option String) :
    (List Invocation × Except PyError Int) × TestsList :=
  t.run_st exitOf [binary_name] output_dir

/-- `TestsList.run_all`: `self.run(self.get_names(), output_dir)`. -/
def TestsList.run_all_st (t : TestsList) (exitOf : Invocation → Int)
    (output_dir : Option String) :
    (List Invocation × Except PyError Int) × TestsList :=
  let g := t.get_names_st
  g.2.run_st exitOf g.1 output_dir

/-- The first requested name the registry does not contain (`none` when all
names are present), stated with the same membership test `run` uses. -/
def TestsList.firstMissing (t : TestsList) (binaries : List String) : Option String :=
  binaries.find? fun b => !(PyDict.isFound (t.tests.lookup b))

/-- The placement invariant of open addressing without deletion: every
stored key sits at some step `n` of its own probe sequence, the slots at
the earlier steps are occupied, and none of them holds the same key.  It
holds for every table reachable by insertions from the empty table, and it
is what makes every stored key findable and stored at most once. -/
def SlotInv {α : Type} (d : PyDict α) : Prop :=
  ∀ (s : Fin 8) (k : String) (v : α), d.slots s = some (k, v) →
    ∃ n, n < probeFuel ∧ probeSlot (pyStrHash k) n = s ∧
      ∀ i, i < n → ∃ k' v', d.slots (probeSlot (pyStrHash k) i) = some (k', v') ∧ k' ≠ k

/-- Every value stored in the registry is the default test data.  This is a
consequence of the `AttributeError` slip in `__get_test_data`: a config can
only load at all when no entry has a `to_fix` key, and then every entry
produces `{'excluded_tests': None, 'platforms': None}`. -/
def AllDefault (d : PyDict TestData) : Prop :=
  ∀ (s : Fin 8) (k : String) (v : TestData), d.slots s = some (k, v) →
    v = { excluded_tests := none, platforms := none }

instance {ε α : Type} [DecidableEq ε] [DecidableEq α] : DecidableEq (Except ε α) :=
  fun a b =>
    match a, b with
    | .error e, .error f =>
      if h : e = f then .isTrue (by rw [h]) else .isFalse (by intro hh; cases hh; exact h rfl)
    | .ok x, .ok y =>
      if h : x = y then .isTrue (by rw [h]) else .isFalse (by intro hh; cases hh; exact h rfl)
    | .error _, .ok _ => .isFalse (by intro hh; cases hh)
    | .ok _, .error _ => .isFalse (by intro hh; cases hh)

/-- The run policy the specification derives from one settings value: a
non-null settings value with a `to_fix` key contributes its list as the
exclusions, anything else contributes none; the `platform` setting is
accepted but unused.  (Reference definition following the words of the
spec, used to state the last-entry-wins part of the registry claim.) -/
def specRunPolicy (settings : Option Settings) : TestData :=
  { excluded_tests := match settings with
      | none => none
      | some s => s.to_fix,
    platforms := none }

/-- The policy of the last config entry carrying a given name (reference
definition for the last-entry-wins wording of the spec). -/
def lastEntrySettings (cfg : List ConfigEntry) (n : String) : Option TestData :=
  (cfg.reverse.find? fun e => entryName e == n).map fun e =>
    specRunPolicy (expand_shorthand e).2

/-! Concrete sample data used by the witnesses.  Under the CPython string
hash, `url_unittests` probes slot 6 first and `base_unittests` slot 1, so
inserting them in this order makes `keys()` return them reversed. -/

def sampleConfig : List ConfigEntry :=
  [ConfigEntry.str "url_unittests", ConfigEntry.str "base_unittests"]

def sampleReg : PyDict TestData :=
  match get_tests_list sampleConfig with
  | .ok d => d
  | .error _ => PyDict.empty

def sampleT : TestsList :=
  { config_path := "/cfg/native_tests.yml", tests_dir := "/t", tests := sampleReg }

/-- Exit-code environment where `url_unittests` exits 0 and everything else
exits 2. -/
def exitZeroTwo : Invocation → Int :=
  fun inv => if inv.args.headD "" = "/t/url_unittests" then 0 else 2

/-- Exit-code environment where every binary exits 1. -/
def exitOne : Invocation → Int := fun _ => 1

/-- The invocation `__run` performs for `url_unittests` with output dir
`/out` (fallback value unreachable: the lookup succeeds). -/
def invUrlOut : Invocation :=
  match (sampleT.runOne_st exitZeroTwo "url_unittests" (some "/out")).1 with
  | .ok (inv, _) => inv
  | .error _ => { args := [], stdout_to_devnull := false }

/-- The invocation `__run` performs for `url_unittests` without an output
dir (fallback value unreachable: the lookup succeeds). -/
def invUrlNone : Invocation :=
  match (sampleT.runOne_st exitZeroTwo "url_unittests" none).1 with
  | .ok (inv, _) => inv
  | .error _ => { args := [], stdout_to_devnull := false }

/-! State-threading lemmas: each method hands back the `self` it received,
because no method body after `__init__` assigns to a field of `self`. -/

theorem runOne_st_state (t : TestsList) (exitOf : Invocation → Int)
    (binary_name : String) (output_dir : Option String) :
    (t.runOne_st exitOf binary_name output_dir).2 = t := by
  simp only [TestsList.runOne_st]
  split <;> rfl

theorem validate_st_state (binaries : List String) :
    ∀ t : TestsList, (t.validate_st binaries).2 = t := by
  induction binaries with
  | nil => intro t; rfl
  | cons b rest ih =>
    intro t
    simp only [TestsList.validate_st]
    split
    · rfl
    · rfl
    · exact ih t

theorem runExec_st_state (binaries : List String) :
    ∀ (t : TestsList) (exitOf : Invocation → Int) (output_dir : Option String),
      (TestsList.runExec_st t exitOf output_dir binaries).2 = t := by
  induction binaries with
  | nil => intro t exitOf od; rfl
  | cons b rest ih =>
    intro t exitOf od
    simp only [TestsList.runExec_st]
    split
    · exact runOne_st_state t exitOf b od
    · rw [ih, runOne_st_state]

theorem run_st_state (t : TestsList) (exitOf : Invocation → Int)
    (binaries : List String) (output_dir : Option String) :
    (t.run_st exitOf binaries output_dir).2 = t := by
  simp only [TestsList.run_st]
  split
  · exact validate_st_state binaries t
  · rw [runExec_st_state, validate_st_state]

/-! Argv facts used by the filter and output-path claims. -/

theorem ssw_empty_filter : strStartsWith "" "--gtest_filter" = false := rfl

theorem ssw_output_not_filter (p : String) :
    strStartsWith ("--gtest_output=" ++ output_format ++ ":" ++ p) "--gtest_filter" = false := rfl

theorem ssw_empty_output : strStartsWith "" "--gtest_output" = false := rfl

theorem ssw_filter_not_output (x : String) :
    strStartsWith ("--gtest_filter=" ++ x) "--gtest_output" = false := rfl

theorem ssw_results_not_abs (x y : String) :
    strStartsWith ("results_" ++ x ++ y) "/" = false := rfl

theorem isFound_iff {α : Type} (r : Option (Option α)) :
    PyDict.isFound r = true ↔ ∃ v, r = some (some v) := by
  rcases r with _ | o
  · simp [PyDict.isFound]
  · rcases o with _ | v <;> simp [PyDict.isFound]

theorem validate_ok (binaries : List String) :
    ∀ t : TestsList, (∀ b ∈ binaries, PyDict.isFound (t.tests.lookup b) = true) →
      (t.validate_st binaries).1 = .ok () := by
  induction binaries with
  | nil => intro t _; rfl
  | cons b rest ih =>
    intro t h
    obtain ⟨td, hlk⟩ := (isFound_iff _).mp (h b (by simp))
    simp only [TestsList.validate_st, hlk]
    exact ih t fun x hx => h x (by simp [hx])

theorem validate_err (binaries : List String) :
    ∀ (t : TestsList) (m : String),
      (∀ b ∈ binaries, t.tests.lookup b ≠ none) →
      t.firstMissing binaries = some m →
      (t.validate_st binaries).1 = .error (.unknownBinary m t.config_path) := by
  induction binaries with
  | nil => intro t m _ hf; simp [TestsList.firstMissing] at hf
  | cons b rest ih =>
    intro t m h hf
    by_cases hb : PyDict.isFound (t.tests.lookup b) = true
    · obtain ⟨td, hlk⟩ := (isFound_iff _).mp hb
      simp only [TestsList.validate_st, hlk]
      apply ih t m fun x hx => h x (by simp [hx])
      simpa [TestsList.firstMissing, List.find?, hb] using hf
    · have hlk : t.tests.lookup b = some none := by
        rcases hr : t.tests.lookup b with _ | o
        · exact absurd hr (h b (by simp))
        · rcases o with _ | td
          · rfl
          · exact absurd ((isFound_iff _).mpr ⟨td, hr⟩) hb
      have hm : m = b := by
        have hbf : PyDict.isFound (t.tests.lookup b) = false := by
          revert hb; cases PyDict.isFound (t.tests.lookup b) <;> simp
        have hnb : (!PyDict.isFound (t.tests.lookup b)) = true := by rw [hbf]; rfl
        simp [TestsList.firstMissing, List.find?, hnb] at hf
        exact hf.symm
      subst hm
      simp only [TestsList.validate_st, hlk]

theorem runOne_st_found (t : TestsList) (exitOf : Invocation → Int)
    (binary_name : String) (output_dir : Option String) (td : TestData)
    (hlk : t.tests.lookup binary_name = some (some td)) :
    t.runOne_st exitOf binary_name output_dir =
      (.ok (mkInvocation (pyJoin t.tests_dir binary_name) td.excluded_tests
          (get_output_path binary_name output_dir),
        exitOf (mkInvocation (pyJoin t.tests_dir binary_name) td.excluded_tests
          (get_output_path binary_name output_dir))), t) := by
  simp [TestsList.runOne_st, hlk, TestBinary.runProc]

theorem runExec_ok (binaries : List String) :
    ∀ (t : TestsList) (exitOf : Invocation → Int) (output_dir : Option String),
      (∀ b ∈ binaries, PyDict.isFound (t.tests.lookup b) = true) →
      (TestsList.runExec_st t exitOf output_dir binaries).1.2 =
        .ok (((TestsList.runExec_st t exitOf output_dir binaries).1.1.map exitOf).sum) ∧
      (TestsList.runExec_st t exitOf output_dir binaries).1.1.length = binaries.length := by
  induction binaries with
  | nil => intro t exitOf od _; exact ⟨rfl, rfl⟩
  | cons b rest ih =>
    intro t exitOf od h
    obtain ⟨td, hlk⟩ := (isFound_iff _).mp (h b (by simp))
    have hrest := ih t exitOf od fun x hx => h x (by simp [hx])
    simp only [TestsList.runExec_st, runOne_st_found t exitOf b od td hlk]
    rw [hrest.1]
    refine ⟨?_, by simp [hrest.2]⟩
    simp [List.sum_cons]

/-- C1: the spec says a non-null settings value with a `to_fix` key makes
its value the `excludedTests` of the policy.  The code instead executes
`test_data.excluded_tests = configs['to_fix']`, an attribute assignment on
a plain dict, which raises `AttributeError`; the surrounding comment
(`# List of excluded tests.`) and the read site
`test_data['excluded_tests']` show the intended statement was the item
assignment `test_data['excluded_tests'] = ...`, so the code is the slip.
Entries whose settings are null or lack `to_fix` do produce an absent
exclusion list, as the spec states. -/
theorem C1_to_fix_attribute_error :
    get_test_data (.map "example_tests"
        (some { to_fix := some ["Suite.Api"], platform := none })) =
      .error (.attributeError "dict object has no attribute excluded_tests") ∧
    get_test_data (.map "example_tests" none) =
      .ok ("example_tests", { excluded_tests := none, platforms := none }) ∧
    get_test_data (.map "example_tests" (some { to_fix := none, platform := some ["linux"] })) =
      .ok ("example_tests", { excluded_tests := none, platforms := none }) :=
  ⟨rfl, rfl, rfl⟩

/-- C2: a non-empty exclusion list is formatted as `-` followed by the
colon-joined identifiers and passed as `--gtest_filter=<expr>` in the argv;
with an empty or absent exclusion list no filter argument appears among the
arguments after the executable path (the code leaves an empty placeholder
string in that argv slot, which is not a filter argument). -/
theorem C2_filter_expression (binary_path : String)
    (excluded_tests : Option (List String)) (output_file_path : Option String) :
    (∀ l, excluded_tests = some l → l ≠ [] →
      format_excluded_tests l = "-" ++ String.intercalate ":" l ∧
      ("--gtest_filter=" ++ format_excluded_tests l) ∈
        (mkInvocation binary_path excluded_tests output_file_path).args) ∧
    ((excluded_tests = none ∨ excluded_tests = some []) →
      ∀ a ∈ (mkInvocation binary_path excluded_tests output_file_path).args.drop 1,
        strStartsWith a "--gtest_filter" = false) := by
  constructor
  · rintro l rfl hne
    refine ⟨rfl, ?_⟩
    have hl : 0 < l.length := List.length_pos.mpr hne
    simp [mkInvocation, hl]
  · rintro (rfl | rfl) a ha <;>
      cases output_file_path with
      | none =>
        simp [mkInvocation] at ha
        subst ha
        rfl
      | some p =>
        simp [mkInvocation] at ha
        rcases ha with rfl | rfl
        · rfl
        · exact ssw_output_not_filter p

/-- C2 witness: the concrete instance from the spec, exclusions
`["A.B", "C.D"]` yield filter text `-A.B:C.D` inside a
`--gtest_filter=` argument, and with absent or empty exclusions no argument
after the path is a filter argument. -/
theorem C2_filter_expression_witness :
    format_excluded_tests ["A.B", "C.D"] = "-A.B:C.D" ∧
    ("--gtest_filter=-A.B:C.D") ∈ (mkInvocation "/t/x" (some ["A.B", "C.D"]) none).args ∧
    (∀ a ∈ (mkInvocation "/t/x" none none).args.drop 1,
      strStartsWith a "--gtest_filter" = false) ∧
    (∀ a ∈ (mkInvocation "/t/x" (some []) (some "/o/results_x.xml")).args.drop 1,
      strStartsWith a "--gtest_filter" = false) := by
  refine ⟨rfl, ?_, ?_, ?_⟩
  · exact ((C2_filter_expression "/t/x" (some ["A.B", "C.D"]) none).1
      ["A.B", "C.D"] rfl (by decide)).2
  · exact (C2_filter_expression "/t/x" none none).2 (Or.inl rfl)
  · exact (C2_filter_expression "/t/x" (some []) (some "/o/results_x.xml")).2 (Or.inr rfl)

/-- C7: `run_all` is literally `self.run(self.get_names(), output_dir)`,
so the two compute the same invocations, the same result and the same
final state. -/
theorem C7_run_all_equiv (t : TestsList) (exitOf : Invocation → Int)
    (output_dir : Option String) :
    t.run_all_st exitOf output_dir = t.run_st exitOf t.get_names output_dir := rfl

/-- C8: a bare-string entry and the single-key mapping with null settings
expand to the same normalized entry and produce identical test data, with
empty exclusions. -/
theorem C8_shorthand_roundtrip (name : String) :
    get_test_data (.str name) = get_test_data (.map name none) ∧
    get_test_data (.str name) =
      .ok (name, { excluded_tests := none, platforms := none }) :=
  ⟨rfl, rfl⟩

/-- C9: no public operation mutates the object: `get_names`, `run`,
`run_only` and `run_all`, translated in state-passing style, all return the
`TestsList` state they received, so repeated runs observe the same
registry, config path and tests dir. -/
theorem C9_registry_immutable (t : TestsList) (exitOf : Invocation → Int)
    (binaries : List String) (binary_name : String) (output_dir : Option String) :
    (t.get_names_st).2 = t ∧
    (t.run_st exitOf binaries output_dir).2 = t ∧
    (t.run_only_st exitOf binary_name output_dir).2 = t ∧
    (t.run_all_st exitOf output_dir).2 = t :=
  ⟨rfl, run_st_state t exitOf binaries output_dir,
    run_st_state t exitOf [binary_name] output_dir,
    run_st_state t exitOf t.tests.keys output_dir⟩

/-- C10: running an empty selection validates vacuously, performs no
invocation and returns suite exit code 0. -/
theorem C10_empty_run (t : TestsList) (exitOf : Invocation → Int)
    (output_dir : Option String) :
    t.run exitOf [] output_dir = ([], .ok 0) := rfl

/-- C3: when every requested name is present in the registry, `run`
performs one invocation per requested binary (in order) and returns the
arithmetic sum of their exit codes — not a logical or, and, or maximum. -/
theorem C3_run_sums (t : TestsList) (exitOf : Invocation → Int)
    (binaries : List String) (output_dir : Option String)
    (h : ∀ b ∈ binaries, PyDict.isFound (t.tests.lookup b) = true) :
    (t.run exitOf binaries output_dir).2 =
      .ok (((t.run exitOf binaries output_dir).1.map exitOf).sum) ∧
    (t.run exitOf binaries output_dir).1.length = binaries.length := by
  have hv := validate_ok binaries t h
  simp only [TestsList.run, TestsList.run_st, hv, validate_st_state]
  exact runExec_ok binaries t exitOf output_dir h

/-- C3 witness: in the two-binary registry, with `url_unittests` exiting 0
and `base_unittests` exiting 2 the suite code is 2 (the sum), and with both
exiting 1 the suite code is the count 2. -/
theorem C3_run_sums_witness :
    (∀ b ∈ ["url_unittests", "base_unittests"],
      PyDict.isFound (sampleT.tests.lookup b) = true) ∧
    (sampleT.run exitZeroTwo ["url_unittests", "base_unittests"] none).2 =
      .ok (((sampleT.run exitZeroTwo ["url_unittests", "base_unittests"] none).1.map
        exitZeroTwo).sum) ∧
    (sampleT.run exitZeroTwo ["url_unittests", "base_unittests"] none).2 = .ok 2 ∧
    (sampleT.run exitOne ["url_unittests", "base_unittests"] none).2 = .ok 2 := by
  refine ⟨by decide, ?_, by decide, by decide⟩
  exact (C3_run_sums sampleT exitZeroTwo ["url_unittests", "base_unittests"] none
    (by decide)).1

/-- C4: when a requested name is missing from the registry (here `m`, the
first missing one), `run` fails during the validation loop with the
unknown-binary error before any binary is executed: the invocation list is
empty even if other requested names are valid. -/
theorem C4_unknown_binary_fail_fast (t : TestsList) (exitOf : Invocation → Int)
    (binaries : List String) (output_dir : Option String) (m : String)
    (hall : ∀ b ∈ binaries, t.tests.lookup b ≠ none)
    (hfirst : t.firstMissing binaries = some m) :
    (t.run exitOf binaries output_dir).1 = [] ∧
    (t.run exitOf binaries output_dir).2 =
      .error (.unknownBinary m t.config_path) := by
  have hv := validate_err binaries t m hall hfirst
  simp [TestsList.run, TestsList.run_st, hv]

/-- C4 witness: requesting the valid `url_unittests` together with the
absent `ghost_unittests` raises the unknown-binary error naming
`ghost_unittests` and performs zero invocations. -/
theorem C4_unknown_binary_fail_fast_witness :
    (∀ b ∈ ["url_unittests", "ghost_unittests"], sampleT.tests.lookup b ≠ none) ∧
    sampleT.firstMissing ["url_unittests", "ghost_unittests"] = some "ghost_unittests" ∧
    (sampleT.run exitZeroTwo ["url_unittests", "ghost_unittests"] none).1 = [] ∧
    (sampleT.run exitZeroTwo ["url_unittests", "ghost_unittests"] none).2 =
      .error (.unknownBinary "ghost_unittests" sampleT.config_path) := by
  refine ⟨by decide, by decide, ?_, ?_⟩
  · exact (C4_unknown_binary_fail_fast sampleT exitZeroTwo
      ["url_unittests", "ghost_unittests"] none "ghost_unittests"
      (by decide) (by decide)).1
  · exact (C4_unknown_binary_fail_fast sampleT exitZeroTwo
      ["url_unittests", "ghost_unittests"] none "ghost_unittests"
      (by decide) (by decide)).2

/-- C5: with an output dir `d` (non-empty, no trailing slash — the script
receives it through `os.path.abspath`), the invocation for a binary carries
the argument `--gtest_output=xml:<d>/results_<name>.xml` and its stdout is
redirected to the null sink; without an output dir, no argument after the
executable path is an output argument and stdout stays attached to the
orchestrator (the code leaves an empty placeholder string in the argv slot,
which is not an output argument). -/
theorem C5_output_contract (t : TestsList) (exitOf : Invocation → Int)
    (binary_name : String) (td : TestData)
    (hlk : t.tests.lookup binary_name = some (some td)) :
    (∀ d, d ≠ "" → strEndsWith d "/" = false →
      ∀ inv code, (t.runOne_st exitOf binary_name (some d)).1 = .ok (inv, code) →
        pyJoin d ("results_" ++ binary_name ++ ".xml") =
          d ++ "/" ++ ("results_" ++ binary_name ++ ".xml") ∧
        ("--gtest_output=xml:" ++ pyJoin d ("results_" ++ binary_name ++ ".xml")) ∈
          inv.args ∧
        inv.stdout_to_devnull = true) ∧
    (∀ inv code, (t.runOne_st exitOf binary_name none).1 = .ok (inv, code) →
      (∀ a ∈ inv.args.drop 1, strStartsWith a "--gtest_output" = false) ∧
      inv.stdout_to_devnull = false) := by
  constructor
  · intro d hd hslash inv code hrun
    rw [runOne_st_found t exitOf binary_name (some d) td hlk] at hrun
    simp only [Except.ok.injEq, Prod.mk.injEq] at hrun
    obtain ⟨rfl, -⟩ := hrun
    refine ⟨by simp [pyJoin, ssw_results_not_abs, hd, hslash], ?_, rfl⟩
    exact List.mem_cons_of_mem _ (List.mem_cons_of_mem _ (List.mem_cons_self _ _))
  · intro inv code hrun
    rw [runOne_st_found t exitOf binary_name none td hlk] at hrun
    simp only [Except.ok.injEq, Prod.mk.injEq] at hrun
    obtain ⟨rfl, -⟩ := hrun
    refine ⟨?_, rfl⟩
    intro a ha
    simp only [mkInvocation, get_output_path, List.drop, List.mem_cons,
      List.not_mem_nil, or_false] at ha
    rcases ha with rfl | rfl
    · rcases td.excluded_tests with _ | l
      · rfl
      · by_cases hl : 0 < l.length
        · simp only [if_pos hl]
          exact ssw_filter_not_output _
        · simp only [if_neg hl]
          rfl
    · rfl

/-- C5 witness: for `url_unittests` with output dir `/out` the invocation
contains `--gtest_output=xml:/out/results_url_unittests.xml` and redirects
stdout to the null sink; without an output dir no argument after the path
is an output argument and stdout passes through. -/
theorem C5_output_contract_witness :
    sampleT.tests.lookup "url_unittests" =
      some (some { excluded_tests := none, platforms := none }) ∧
    (pyJoin "/out" ("results_" ++ "url_unittests" ++ ".xml") =
      "/out" ++ "/" ++ ("results_" ++ "url_unittests" ++ ".xml") ∧
      ("--gtest_output=xml:" ++ pyJoin "/out" ("results_" ++ "url_unittests" ++ ".xml")) ∈
        invUrlOut.args ∧
      invUrlOut.stdout_to_devnull = true) ∧
    ((∀ a ∈ invUrlNone.args.drop 1, strStartsWith a "--gtest_output" = false) ∧
      invUrlNone.stdout_to_devnull = false) := by
  have h := C5_output_contract sampleT exitZeroTwo "url_unittests"
    { excluded_tests := none, platforms := none } (by decide)
  refine ⟨by decide, ?_, ?_⟩
  · exact h.1 "/out" (by decide) (by decide) invUrlOut 0 (by decide)
  · exact h.2 invUrlNone 0 (by decide)

/-! Properties of the probe-loop search. -/

theorem searchIdx_some {p : Nat → Bool} :
    ∀ (fuel start n : Nat), searchIdx p fuel start = some n →
      start ≤ n ∧ n < start + fuel ∧ p n = true ∧
        ∀ i, start ≤ i → i < n → p i = false := by
  intro fuel
  induction fuel with
  | zero => intro start n h; simp [searchIdx] at h
  | succ f ih =>
    intro start n h
    simp only [searchIdx] at h
    by_cases hp : p start = true
    · rw [if_pos hp] at h
      obtain rfl : start = n := by injection h
      exact ⟨Nat.le_refl _, by omega, hp, fun i h1 h2 =>
        absurd (Nat.lt_of_le_of_lt h1 h2) (Nat.lt_irrefl _)⟩
    · rw [if_neg hp] at h
      obtain ⟨h1, hb, h2, h3⟩ := ih (start + 1) n h
      refine ⟨by omega, by omega, h2, ?_⟩
      intro i hi1 hi2
      rcases Nat.eq_or_lt_of_le hi1 with rfl | hi
      · exact Bool.eq_false_iff.mpr hp
      · exact h3 i hi hi2

theorem searchIdx_isSome {p : Nat → Bool} :
    ∀ (fuel start m : Nat), start ≤ m → m < start + fuel → p m = true →
      ∃ n, searchIdx p fuel start = some n ∧ n ≤ m := by
  intro fuel
  induction fuel with
  | zero => intro start m h1 h2 _; omega
  | succ f ih =>
    intro start m h1 h2 hp
    simp only [searchIdx]
    by_cases hs : p start = true
    · exact ⟨start, by rw [if_pos hs], h1⟩
    · rcases Nat.eq_or_lt_of_le h1 with rfl | hlt
      · exact absurd hp hs
      · obtain ⟨n, hn, hnm⟩ := ih (start + 1) m hlt (by omega) hp
        exact ⟨n, by rw [if_neg hs]; exact hn, hnm⟩

theorem findIdx_spec {α : Type} (d : PyDict α) (k : String) (n : Nat)
    (h : d.findIdx k = some n) :
    n < probeFuel ∧ d.probeHit k n = true ∧ ∀ i, i < n → d.probeHit k i = false := by
  obtain ⟨-, hb, h2, h3⟩ := searchIdx_some probeFuel 0 n h
  exact ⟨by omega, h2, fun i hi => h3 i (Nat.zero_le i) hi⟩

theorem probeHit_true_cases {α : Type} {d : PyDict α} {k : String} {n : Nat}
    (h : d.probeHit k n = true) :
    d.slots (probeSlot (pyStrHash k) n) = none ∨
      ∃ v, d.slots (probeSlot (pyStrHash k) n) = some (k, v) := by
  unfold PyDict.probeHit at h
  split at h
  next hs => exact Or.inl hs
  next k' v hs =>
    obtain rfl : k' = k := by simpa using h
    exact Or.inr ⟨v, hs⟩

theorem probeHit_false_occupied {α : Type} {d : PyDict α} {k : String} {i : Nat}
    (h : d.probeHit k i = false) :
    ∃ k' v', d.slots (probeSlot (pyStrHash k) i) = some (k', v') ∧ k' ≠ k := by
  unfold PyDict.probeHit at h
  split at h
  next hs => cases h
  next k' v hs => exact ⟨k', v, hs, by simpa using h⟩

theorem setSlot_slots {α : Type} (d : PyDict α) (s : Fin 8) (e : Option (String × α))
    (t : Fin 8) : (d.setSlot s e).slots t = if t = s then e else d.slots t := rfl

theorem insert_eq {α : Type} {d d' : PyDict α} {k : String} {v : α}
    (h : d.insert k v = some d') :
    ∃ n, d.findIdx k = some n ∧
      d' = d.setSlot (probeSlot (pyStrHash k) n) (some (k, v)) := by
  unfold PyDict.insert at h
  rcases hf : d.findIdx k with _ | n
  · rw [hf] at h; cases h
  · rw [hf] at h
    simp only [Option.map_some', Option.some.injEq] at h
    exact ⟨n, rfl, h.symm⟩

theorem slotInv_empty {α : Type} : SlotInv (PyDict.empty : PyDict α) := by
  intro s k v h
  simp [PyDict.empty] at h

theorem allDefault_empty : AllDefault PyDict.empty := by
  intro s k v h
  simp [PyDict.empty] at h

/-- Inserting preserves the placement invariant: the inserted key is placed
at the first hit of its own probe sequence (so its prefix is occupied by
other keys), and the probe prefixes of previously stored keys are unchanged
except possibly at the updated slot, which then holds the inserted key,
necessarily different from theirs. -/
theorem slotInv_insert {α : Type} {d d' : PyDict α} {k : String} {v : α}
    (hInv : SlotInv d) (h : d.insert k v = some d') : SlotInv d' := by
  obtain ⟨n, hf, rfl⟩ := insert_eq h
  obtain ⟨hn, hhit, hmin⟩ := findIdx_spec d k n hf
  have hbefore : ∀ i, i < n →
      ∃ k' v', d.slots (probeSlot (pyStrHash k) i) = some (k', v') ∧ k' ≠ k :=
    fun i hi => probeHit_false_occupied (hmin i hi)
  have hne : ∀ i, i < n → probeSlot (pyStrHash k) i ≠ probeSlot (pyStrHash k) n := by
    intro i hi hcontra
    obtain ⟨k', v', hsl, hkk⟩ := hbefore i hi
    rw [hcontra] at hsl
    rcases probeHit_true_cases hhit with hnone | ⟨w, hw⟩
    · rw [hsl] at hnone; cases hnone
    · rw [hsl] at hw
      simp only [Option.some.injEq, Prod.mk.injEq] at hw
      exact hkk hw.1
  intro s k₀ v₀ hslot
  rw [setSlot_slots] at hslot
  by_cases hss : s = probeSlot (pyStrHash k) n
  · rw [if_pos hss] at hslot
    simp only [Option.some.injEq, Prod.mk.injEq] at hslot
    obtain ⟨rfl, rfl⟩ := hslot
    refine ⟨n, hn, hss.symm, ?_⟩
    intro i hi
    obtain ⟨k', v', hsl, hkk⟩ := hbefore i hi
    refine ⟨k', v', ?_, hkk⟩
    rw [setSlot_slots, if_neg (hne i hi)]
    exact hsl
  · rw [if_neg hss] at hslot
    obtain ⟨n₀, hn₀, hseq₀, hprev₀⟩ := hInv s k₀ v₀ hslot
    refine ⟨n₀, hn₀, hseq₀, ?_⟩
    intro i hi
    obtain ⟨k', v', hsl', hkk'⟩ := hprev₀ i hi
    by_cases his : probeSlot (pyStrHash k₀) i = probeSlot (pyStrHash k) n
    · rcases probeHit_true_cases hhit with hnone | ⟨w, hw⟩
      · rw [his] at hsl'; rw [hsl'] at hnone; cases hnone
      · rw [his] at hsl'
        rw [hw] at hsl'
        simp only [Option.some.injEq, Prod.mk.injEq] at hsl'
        obtain ⟨rfl, -⟩ := hsl'
        refine ⟨k, v, ?_, hkk'⟩
        rw [setSlot_slots, if_pos his]
    · refine ⟨k', v', ?_, hkk'⟩
      rw [setSlot_slots, if_neg his]
      exact hsl'

/-- Under the placement invariant a key is stored in at most one slot. -/
theorem slotInv_unique {α : Type} {d : PyDict α} (hInv : SlotInv d)
    {s s' : Fin 8} {k : String} {v v' : α}
    (h1 : d.slots s = some (k, v)) (h2 : d.slots s' = some (k, v')) : s = s' := by
  obtain ⟨n1, -, hseq1, hprev1⟩ := hInv s k v h1
  obtain ⟨n2, -, hseq2, hprev2⟩ := hInv s' k v' h2
  rcases Nat.lt_trichotomy n1 n2 with h | h | h
  · obtain ⟨k', w, hsl, hkk⟩ := hprev2 n1 h
    rw [hseq1, h1] at hsl
    simp only [Option.some.injEq, Prod.mk.injEq] at hsl
    exact absurd hsl.1.symm hkk
  · rw [← hseq1, ← hseq2, h]
  · obtain ⟨k', w, hsl, hkk⟩ := hprev1 n2 h
    rw [hseq2, h2] at hsl
    simp only [Option.some.injEq, Prod.mk.injEq] at hsl
    exact absurd hsl.1.symm hkk

/-- Under the placement invariant `keys()` lists each stored key once. -/
theorem keys_nodup {α : Type} {d : PyDict α} (hInv : SlotInv d) : d.keys.Nodup := by
  unfold PyDict.keys
  refine List.Nodup.filterMap ?_ (List.nodup_finRange 8)
  intro s s' k hk hk'
  rw [Option.mem_def, Option.map_eq_some'] at hk hk'
  obtain ⟨⟨k1, v1⟩, hsl1, hfst1⟩ := hk
  obtain ⟨⟨k2, v2⟩, hsl2, hfst2⟩ := hk'
  cases hfst1
  cases hfst2
  exact slotInv_unique hInv hsl1 hsl2

/-- A key is listed by `keys()` exactly when some slot stores it. -/
theorem mem_keys {α : Type} (d : PyDict α) (k : String) :
    k ∈ d.keys ↔ ∃ s v, d.slots s = some (k, v) := by
  unfold PyDict.keys
  rw [List.mem_filterMap]
  constructor
  · rintro ⟨s, -, hmap⟩
    rw [Option.map_eq_some'] at hmap
    obtain ⟨⟨k1, v1⟩, hsl, hfst⟩ := hmap
    cases hfst
    exact ⟨s, v1, hsl⟩
  · rintro ⟨s, v, hsl⟩
    exact ⟨s, List.mem_finRange s, by rw [hsl]; rfl⟩

/-- Keys after an insertion: the previous keys plus the inserted one. -/
theorem mem_keys_insert {α : Type} {d d' : PyDict α} {k : String} {v : α}
    (h : d.insert k v = some d') (x : String) :
    x ∈ d'.keys ↔ x ∈ d.keys ∨ x = k := by
  obtain ⟨n, hf, rfl⟩ := insert_eq h
  obtain ⟨-, hhit, -⟩ := findIdx_spec d k n hf
  rw [mem_keys, mem_keys]
  constructor
  · rintro ⟨s, w, hsl⟩
    rw [setSlot_slots] at hsl
    by_cases hss : s = probeSlot (pyStrHash k) n
    · rw [if_pos hss] at hsl
      simp only [Option.some.injEq, Prod.mk.injEq] at hsl
      exact Or.inr hsl.1.symm
    · rw [if_neg hss] at hsl
      exact Or.inl ⟨s, w, hsl⟩
  · rintro (⟨s, w, hsl⟩ | rfl)
    · by_cases hss : s = probeSlot (pyStrHash k) n
      · subst hss
        rcases probeHit_true_cases hhit with hnone | ⟨w', hw⟩
        · rw [hsl] at hnone; cases hnone
        · rw [hsl] at hw
          simp only [Option.some.injEq, Prod.mk.injEq] at hw
          refine ⟨probeSlot (pyStrHash k) n, v, ?_⟩
          rw [setSlot_slots, if_pos rfl, hw.1]
      · exact ⟨s, w, by rw [setSlot_slots, if_neg hss]; exact hsl⟩
    · refine ⟨probeSlot (pyStrHash x) n, v, ?_⟩
      rw [setSlot_slots, if_pos rfl]

/-- Inserting a default value keeps every stored value default. -/
theorem allDefault_insert {d d' : PyDict TestData} {k : String} {v : TestData}
    (h2 : AllDefault d) (h : d.insert k v = some d')
    (hv : v = { excluded_tests := none, platforms := none }) : AllDefault d' := by
  obtain ⟨n, -, rfl⟩ := insert_eq h
  intro s k₀ v₀ hsl
  rw [setSlot_slots] at hsl
  by_cases hss : s = probeSlot (pyStrHash k) n
  · rw [if_pos hss] at hsl
    simp only [Option.some.injEq, Prod.mk.injEq] at hsl
    obtain ⟨-, rfl⟩ := hsl
    exact hv
  · rw [if_neg hss] at hsl
    exact h2 s k₀ v₀ hsl

/-- Under the placement invariant, lookup succeeds on every stored key and
returns the stored value: the probe walks the same sequence that placed the
key, the earlier slots still hold other keys, so the first hit is the slot
storing the key. -/
theorem lookup_found {α : Type} {d : PyDict α} (hInv : SlotInv d)
    {s : Fin 8} {k : String} {v : α} (h : d.slots s = some (k, v)) :
    d.lookup k = some (some v) := by
  obtain ⟨n, hn, hseq, hprev⟩ := hInv s k v h
  have hfalse : ∀ i, i < n → d.probeHit k i = false := by
    intro i hi
    obtain ⟨k', v', hsl, hkk⟩ := hprev i hi
    unfold PyDict.probeHit
    rw [hsl]
    simpa using hkk
  have hhit : d.probeHit k n = true := by
    unfold PyDict.probeHit
    rw [hseq, h]
    simp
  have hidx : d.findIdx k = some n := by
    obtain ⟨n', hsome, hle⟩ := searchIdx_isSome probeFuel 0 n (Nat.zero_le n)
      (by omega) hhit
    obtain ⟨-, -, hp', -⟩ := searchIdx_some probeFuel 0 n' hsome
    rcases Nat.lt_or_eq_of_le hle with hlt | rfl
    · rw [hfalse n' hlt] at hp'; cases hp'
    · exact hsome
  unfold PyDict.lookup
  rw [hidx]
  simp only [Option.map_some']
  rw [hseq, h]

/-- A successful lookup comes from a stored entry. -/
theorem lookup_some {α : Type} {d : PyDict α} {k : String} {v : α}
    (h : d.lookup k = some (some v)) : ∃ s, d.slots s = some (k, v) := by
  unfold PyDict.lookup at h
  rcases hf : d.findIdx k with _ | n
  · rw [hf] at h; cases h
  · rw [hf] at h
    simp only [Option.map_some', Option.some.injEq] at h
    obtain ⟨-, hhit, -⟩ := findIdx_spec d k n hf
    rcases probeHit_true_cases hhit with hnone | ⟨w, hw⟩
    · rw [hnone] at h; cases h
    · rw [hw] at h
      obtain rfl : w = v := by injection h
      exact ⟨probeSlot (pyStrHash k) n, hw⟩

theorem keys_empty {α : Type} : (PyDict.empty : PyDict α).keys = [] := rfl

/-- A successfully processed entry yields its expansion key as the name and
the default test data (the `AttributeError` branch is the only other
outcome). -/
theorem get_test_data_shape {e : ConfigEntry} {n : String} {td : TestData}
    (h : get_test_data e = .ok (n, td)) :
    n = entryName e ∧ td = { excluded_tests := none, platforms := none } := by
  cases e with
  | str s =>
    simp only [get_test_data, expand_shorthand, Except.ok.injEq, Prod.mk.injEq] at h
    exact ⟨h.1.symm, h.2.symm⟩
  | map key st =>
    cases st with
    | none =>
      simp only [get_test_data, expand_shorthand, Except.ok.injEq, Prod.mk.injEq] at h
      exact ⟨h.1.symm, h.2.symm⟩
    | some cfg =>
      simp only [get_test_data, expand_shorthand] at h
      by_cases hf : cfg.to_fix.isSome
      · rw [if_pos hf] at h; cases h
      · rw [if_neg hf] at h
        simp only [Except.ok.injEq, Prod.mk.injEq] at h
        exact ⟨h.1.symm, h.2.symm⟩

/-- When an entry is processed successfully its settings had no `to_fix`
key, so even the policy the spec derives from it is the default one. -/
theorem get_test_data_policy {e : ConfigEntry} {r : String × TestData}
    (h : get_test_data e = .ok r) :
    specRunPolicy (expand_shorthand e).2 =
      { excluded_tests := none, platforms := none } := by
  cases e with
  | str s => rfl
  | map key st =>
    cases st with
    | none => rfl
    | some cfg =>
      simp only [get_test_data, expand_shorthand] at h
      by_cases hf : cfg.to_fix.isSome
      · rw [if_pos hf] at h; cases h
      · have hnone : cfg.to_fix = none := Option.not_isSome_iff_eq_none.mp hf
        simp only [specRunPolicy, expand_shorthand, hnone]

theorem get_tests_list_aux_entries (cfg : List ConfigEntry) :
    ∀ (acc reg : PyDict TestData), get_tests_list_aux cfg acc = .ok reg →
      ∀ e ∈ cfg, ∃ r, get_test_data e = .ok r := by
  induction cfg with
  | nil => intro acc reg _ e he; cases he
  | cons e0 rest ih =>
    intro acc reg h e he
    simp only [get_tests_list_aux] at h
    rcases hgd : get_test_data e0 with err | ⟨name, td⟩
    · rw [hgd] at h; cases h
    · rw [hgd] at h
      dsimp only at h
      rcases hins : acc.insert name td with _ | acc'
      · rw [hins] at h; cases h
      · rw [hins] at h
        rcases List.mem_cons.mp he with rfl | he'
        · exact ⟨(name, td), hgd⟩
        · exact ih acc' reg h e he'

/-- Folding the config into the registry preserves the placement and
default-value invariants and accumulates exactly the entry names as keys. -/
theorem get_tests_list_aux_spec (cfg : List ConfigEntry) :
    ∀ (acc reg : PyDict TestData), SlotInv acc → AllDefault acc →
      get_tests_list_aux cfg acc = .ok reg →
      SlotInv reg ∧ AllDefault reg ∧
        (∀ x, x ∈ reg.keys ↔ x ∈ acc.keys ∨ x ∈ cfg.map entryName) := by
  induction cfg with
  | nil =>
    intro acc reg h1 h2 h
    obtain rfl : acc = reg := by injection h
    exact ⟨h1, h2, fun x => by simp⟩
  | cons e rest ih =>
    intro acc reg h1 h2 h
    simp only [get_tests_list_aux] at h
    rcases hgd : get_test_data e with err | ⟨name, td⟩
    · rw [hgd] at h; cases h
    · rw [hgd] at h
      dsimp only at h
      rcases hins : acc.insert name td with _ | acc'
      · rw [hins] at h; cases h
      · rw [hins] at h
        obtain ⟨hname, htd⟩ := get_test_data_shape hgd
        obtain ⟨hI, hD, hmem⟩ :=
          ih acc' reg (slotInv_insert h1 hins) (allDefault_insert h2 hins htd) h
        refine ⟨hI, hD, ?_⟩
        intro x
        rw [hmem x, mem_keys_insert hins x]
        subst hname
        simp only [List.map_cons, List.mem_cons]
        tauto

/-- C6 counterexample: the claim says `listNames()` follows the insertion
order of first-seen distinct names, but the registry is a Python 2 dict,
which iterates in hash-slot order.  For the config with entries
`url_unittests` (probing slot 6) then `base_unittests` (probing slot 1),
the config loads fine, the insertion order of first-seen names is
`[url_unittests, base_unittests]`, yet `get_names` returns
`[base_unittests, url_unittests]`. -/
theorem C6_counterexample :
    (get_tests_list sampleConfig).toOption.isSome = true ∧
    sampleT.get_names = ["base_unittests", "url_unittests"] ∧
    sampleConfig.map entryName = ["url_unittests", "base_unittests"] ∧
    sampleT.get_names ≠ sampleConfig.map entryName :=
  ⟨by decide, by decide, by decide, by decide⟩

/-- C6 (amended): for every configuration that loads successfully,
`listNames()` returns exactly the distinct binary names of the document,
each exactly once, and the registry maps each name to the policy of its
last entry (last wins); the order of the returned names is the iteration
order of the CPython 2 hash table, which need not be the insertion order of
first-seen names. -/
theorem C6_amended_registry (cfg : List ConfigEntry) (reg : PyDict TestData)
    (h : get_tests_list cfg = .ok reg) :
    reg.keys.Nodup ∧
    (∀ n, n ∈ reg.keys ↔ n ∈ cfg.map entryName) ∧
    (∀ n v, reg.lookup n = some (some v) ↔ lastEntrySettings cfg n = some v) := by
  obtain ⟨hInv, hDef, hmem⟩ :=
    get_tests_list_aux_spec cfg PyDict.empty reg slotInv_empty allDefault_empty h
  have hmem' : ∀ n, n ∈ reg.keys ↔ n ∈ cfg.map entryName := by
    intro n
    rw [hmem n, keys_empty]
    simp
  refine ⟨keys_nodup hInv, hmem', ?_⟩
  intro n v
  constructor
  · intro hl
    obtain ⟨s, hsl⟩ := lookup_some hl
    have hv : v = { excluded_tests := none, platforms := none } := hDef s n v hsl
    have hn : n ∈ cfg.map entryName := (hmem' n).mp ((mem_keys reg n).mpr ⟨s, v, hsl⟩)
    have hfind : ∃ e', cfg.reverse.find? (fun e => entryName e == n) = some e' := by
      rw [← Option.isSome_iff_exists, List.find?_isSome]
      obtain ⟨e, he, hne⟩ := List.mem_map.mp hn
      exact ⟨e, List.mem_reverse.mpr he, by simp [hne]⟩
    obtain ⟨e', hfind⟩ := hfind
    unfold lastEntrySettings
    rw [hfind]
    simp only [Option.map_some', Option.some.injEq]
    obtain ⟨r, hr⟩ := get_tests_list_aux_entries cfg PyDict.empty reg h e'
      (List.mem_reverse.mp (List.mem_of_find?_eq_some hfind))
    rw [get_test_data_policy hr, hv]
  · intro hl
    unfold lastEntrySettings at hl
    rcases hfind : cfg.reverse.find? (fun e => entryName e == n) with _ | e'
    · rw [hfind] at hl; cases hl
    · rw [hfind] at hl
      simp only [Option.map_some', Option.some.injEq] at hl
      have hmem0 : e' ∈ cfg := List.mem_reverse.mp (List.mem_of_find?_eq_some hfind)
      have hname : entryName e' = n := by simpa using List.find?_some hfind
      obtain ⟨r, hr⟩ := get_tests_list_aux_entries cfg PyDict.empty reg h e' hmem0
      have hv : v = { excluded_tests := none, platforms := none } := by
        rw [← hl, get_test_data_policy hr]
      have hn : n ∈ reg.keys := (hmem' n).mpr (List.mem_map.mpr ⟨e', hmem0, hname⟩)
      obtain ⟨s, w, hsl⟩ := (mem_keys reg n).mp hn
      have hw : w = { excluded_tests := none, platforms := none } := hDef s n w hsl
      rw [hv, ← hw]
      exact lookup_found hInv hsl

/-- C6 witness: the two-binary sample config loads, its names are listed
exactly once each, and each maps to the policy of its (only) entry. -/
theorem C6_amended_registry_witness :
    get_tests_list sampleConfig = .ok sampleReg ∧
    sampleReg.keys.Nodup ∧
    (∀ n, n ∈ sampleReg.keys ↔ n ∈ sampleConfig.map entryName) ∧
    (∀ n v, sampleReg.lookup n = some (some v) ↔
      lastEntrySettings sampleConfig n = some v) := by
  have h := C6_amended_registry sampleConfig sampleReg (by rfl)
  exact ⟨by rfl, h.1, h.2.1, h.2.2⟩

end NativeTests
